import Mathlib

/-!
Verification development for the `funcache` Go package: a function-result
memoization layer with dynamic-scope invalidation.

The embedding models:
  * Go `interface` values used as cache keys and values (`GoVal`),
  * Go map semantics as association lists (`mapLookup` / `mapInsert`),
  * the three `Store` implementations (`nilStore`, `syncMap`, `cowMap`),
  * the call-chain inspector (`getAllCallers`, `wasCalledByCacheBustingFn`)
    over an explicit stack of return addresses,
  * the cache orchestrator (`Cache.Cache` / `Cache.Wrap` / `Cache.Bust`) as an
    interpreter `run` over a small computation language `Prog`, threading the
    cache state (store contents plus the `busting` counter, a uint32 modelled
    as a natural number reduced mod 2^32) and recording a trace of computation
    invocations and store writes.

Concurrency primitives (mutexes, atomics) serialize accesses in the source;
the embedding gives the sequential semantics of the same operations.
-/

namespace Funcache

/-- Go `interface` values, as used for cache keys and cached results.
Interface values compare by dynamic type and value, so a string, an integer
and the nil interface are pairwise distinct keys. `fnKey` stands for the
fully-qualified function name string produced by `runtime.FuncForPC` for the
closure with the given defining location; distinct defining locations yield
distinct names. -/
inductive GoVal where
  | nil : GoVal
  | str : String → GoVal
  | int : Int → GoVal
  | boolean : Bool → GoVal
  | fnKey : Nat → GoVal
  deriving DecidableEq, Repr

/-- Go map read `m[key]`: the value currently associated with `key`, if any. -/
def mapLookup : List (GoVal × GoVal) → GoVal → Option GoVal
  | [], _ => none
  | (k, v) :: rest, key => if k = key then some v else mapLookup rest key

/-- Go map write `m[key] = val`: replaces the existing association for `key`,
or appends a new one. -/
def mapInsert : List (GoVal × GoVal) → GoVal → GoVal → List (GoVal × GoVal)
  | [], key, val => [(key, val)]
  | (k, v) :: rest, key, val =>
    if k = key then (key, val) :: rest else (k, v) :: mapInsert rest key val

/-- The clone loop in `cowMap.Add`: `m2 := make(map); for k, v := range m1,
m2[k] = v`. -/
def mapClone (m : List (GoVal × GoVal)) : List (GoVal × GoVal) :=
  m.foldl (fun acc kv => mapInsert acc kv.1 kv.2) []

/-- Which `Store` implementation backs the cache: the dummy `nilStore`, the
mutex-guarded `syncMap`, or the copy-on-write `cowMap`. -/
inductive StoreKind where
  | nilStore : StoreKind
  | syncMap : StoreKind
  | cowMap : StoreKind
  deriving DecidableEq, Repr

/-- `Store.Add` of each implementation, acting on the store contents.
`nilStore.Add` is a no-op; `syncMap.Add` writes under the lock;
`cowMap.Add` clones the current snapshot, writes, and publishes the clone. -/
def storeAdd : StoreKind → List (GoVal × GoVal) → GoVal → GoVal → List (GoVal × GoVal)
  | .nilStore, m, _, _ => m
  | .syncMap, m, key, val => mapInsert m key val
  | .cowMap, m, key, val => mapInsert (mapClone m) key val

/-- `Store.Get` of each implementation. `nilStore.Get` always reports a miss
(zero values `nil, false`); the two map stores look the key up. -/
def storeGet : StoreKind → List (GoVal × GoVal) → GoVal → Option GoVal
  | .nilStore, _, _ => none
  | .syncMap, m, key => mapLookup m key
  | .cowMap, m, key => mapLookup m key

/-- Program counters (`uintptr` return addresses). -/
abbrev Uintptr := Nat

/-- The calibrated sentinel: the return address one frame above the capture
point inside `(*Cache).Bust`, recorded by `init`. In the model it is a fixed
distinguished address. -/
def cacheBustingFnPc : Uintptr := 1

/-- One call to `runtime.Callers(skip, batch)` with a 64-entry batch: it fills
the batch with the return addresses of the live stack starting `skip` frames
up, and reports how many it wrote (here, the returned list). The abstract
`stack` lists the return addresses innermost first; the model stack starts at
the first frame above the inspection routine, so the three frames the source
skips are not represented. -/
def runtimeCallers (stack : List Uintptr) (skip : Nat) : List Uintptr :=
  (stack.drop skip).take 64

/-- `getAllCallers`: collect the return addresses of the whole live stack in
batches of 64, advancing `skip` by the number captured, stopping when a batch
comes back not full. -/
def getAllCallers (stack : List Uintptr) (skip : Nat) : List Uintptr :=
  if h : (runtimeCallers stack skip).length < 64 then runtimeCallers stack skip
  else
    runtimeCallers stack skip ++
      getAllCallers stack (skip + (runtimeCallers stack skip).length)
termination_by stack.length - skip
decreasing_by
  simp only [runtimeCallers, List.length_take, List.length_drop] at h ⊢
  omega

/-- `wasCalledByCacheBustingFn`: walk every captured return address and report
whether any equals the calibrated sentinel address. -/
def wasCalledByCacheBustingFn (stk : List Uintptr) : Bool :=
  (getAllCallers stk 0).any (fun pc => pc == cacheBustingFnPc)

/-- `getFnName fn`: the symbolic name `runtime.FuncForPC` resolves for the
closure's code pointer. Closures are identified by their defining location
`fid`; the name is injective in the defining location. -/
def getFnName (fid : Nat) : GoVal := GoVal.fnKey fid

/-- The computations handed to the orchestrator: a body is either a pure
result, a panicking computation, sequencing, a `cache.Cache key fn` call
(the closure `fn` has defining location `fid` and body `body`), a
`cache.Wrap fn` call, a `cache.Bust fn` call, or a call made through an
intermediate (non-funcache) function whose frame pushes return address `pc`. -/
inductive Prog where
  | ret : GoVal → Prog
  | fail : Prog
  | seq : Prog → Prog → Prog
  | cacheCall : GoVal → Nat → Prog → Prog
  | wrapCall : Nat → Prog → Prog
  | bustCall : Prog → Prog
  | inFrame : Uintptr → Prog → Prog
  deriving DecidableEq, Repr

/-- The mutable state of one `Cache` value: the contents of its bound store
and the `busting` counter (a `uint32`, kept reduced mod 2^32). -/
structure St where
  store : List (GoVal × GoVal)
  busting : Nat
  deriving DecidableEq, Repr

instance : DecidableEq (Except Unit GoVal) := fun a b =>
  match a, b with
  | .error (), .error () => isTrue rfl
  | .error (), .ok _ => isFalse Except.noConfusion
  | .ok _, .error () => isFalse Except.noConfusion
  | .ok x, .ok y =>
    if h : x = y then isTrue (by rw [h]) else isFalse (fun hc => h (by injection hc))

/-- The outcome of running a `Prog`: the value (or a propagated panic), the
final cache state, the sequence of defining locations of computation closures
that were invoked, and the sequence of `Store.Add` calls performed. -/
structure Result where
  val : Except Unit GoVal
  st : St
  calls : List Nat
  writes : List (GoVal × GoVal)
  deriving DecidableEq, Repr

/-- The tail of `Cache.Cache` after the hit test: `data := fn(); `
`cache.store.Add(key, data); return data`. The invocation of `fn` is the
already-computed `r`; on a panic inside `fn` the panic propagates and no
`Add` happens. -/
def finishInvoke (sk : StoreKind) (key : GoVal) (fid : Nat) (r : Result) : Result :=
  match r.val with
  | .error e => ⟨.error e, r.st, fid :: r.calls, r.writes⟩
  | .ok data =>
    ⟨.ok data, ⟨storeAdd sk r.st.store key data, r.st.busting⟩,
      fid :: r.calls, r.writes ++ [(key, data)]⟩

/-- The interpreter: the semantics of a computation body running against a
cache backed by store `sk`, in cache state `st`, with caller stack `stk`.

  * `cacheCall`: `Cache.Cache` — if the atomic `busting` load is zero or the
    stack walk reports not-busting, try `store.Get(key)` and return a hit;
    otherwise invoke the closure, `Add` its result, and return it.
  * `wrapCall`: `Cache.Wrap` — `Cache.Cache` with key `getFnName fn`.
  * `bustCall`: `Cache.Bust` — atomically increment `busting`, call `fn()`
    (whose nested frames see the sentinel return address on the stack), and
    decrement by adding `^uint32(0)` in a deferred call that runs on both the
    normal and the panicking exit path.
  * `inFrame`: the body runs one ordinary stack frame deeper. -/
def run (sk : StoreKind) : St → List Uintptr → Prog → Result
  | st, _, .ret v => ⟨.ok v, st, [], []⟩
  | st, _, .fail => ⟨.error (), st, [], []⟩
  | st, stk, .seq p q =>
    let r1 := run sk st stk p
    match r1.val with
    | .error e => ⟨.error e, r1.st, r1.calls, r1.writes⟩
    | .ok _ =>
      let r2 := run sk r1.st stk q
      ⟨r2.val, r2.st, r1.calls ++ r2.calls, r1.writes ++ r2.writes⟩
  | st, stk, .cacheCall key fid body =>
    if st.busting == 0 || !wasCalledByCacheBustingFn stk then
      match storeGet sk st.store key with
      | some data => ⟨.ok data, st, [], []⟩
      | none => finishInvoke sk key fid (run sk st stk body)
    else
      finishInvoke sk key fid (run sk st stk body)
  | st, stk, .wrapCall fid body =>
    if st.busting == 0 || !wasCalledByCacheBustingFn stk then
      match storeGet sk st.store (getFnName fid) with
      | some data => ⟨.ok data, st, [], []⟩
      | none => finishInvoke sk (getFnName fid) fid (run sk st stk body)
    else
      finishInvoke sk (getFnName fid) fid (run sk st stk body)
  | st, stk, .bustCall body =>
    let st1 : St := ⟨st.store, (st.busting + 1) % 2 ^ 32⟩
    let r := run sk st1 (cacheBustingFnPc :: stk) body
    let st2 : St := ⟨r.st.store, (r.st.busting + (2 ^ 32 - 1)) % 2 ^ 32⟩
    match r.val with
    | .error e => ⟨.error e, st2, r.calls, r.writes⟩
    | .ok _ => ⟨.ok GoVal.nil, st2, r.calls, r.writes⟩
  | st, stk, .inFrame pc body => run sk st (pc :: stk) body

/-- The reference semantics without the fast-path shortcut: identical to
`run`, except that `Cache.Cache` and `Cache.Wrap` always perform the full
stack walk instead of first consulting the atomic `busting` counter. -/
def runFull (sk : StoreKind) : St → List Uintptr → Prog → Result
  | st, _, .ret v => ⟨.ok v, st, [], []⟩
  | st, _, .fail => ⟨.error (), st, [], []⟩
  | st, stk, .seq p q =>
    let r1 := runFull sk st stk p
    match r1.val with
    | .error e => ⟨.error e, r1.st, r1.calls, r1.writes⟩
    | .ok _ =>
      let r2 := runFull sk r1.st stk q
      ⟨r2.val, r2.st, r1.calls ++ r2.calls, r1.writes ++ r2.writes⟩
  | st, stk, .cacheCall key fid body =>
    if !wasCalledByCacheBustingFn stk then
      match storeGet sk st.store key with
      | some data => ⟨.ok data, st, [], []⟩
      | none => finishInvoke sk key fid (runFull sk st stk body)
    else
      finishInvoke sk key fid (runFull sk st stk body)
  | st, stk, .wrapCall fid body =>
    if !wasCalledByCacheBustingFn stk then
      match storeGet sk st.store (getFnName fid) with
      | some data => ⟨.ok data, st, [], []⟩
      | none => finishInvoke sk (getFnName fid) fid (runFull sk st stk body)
    else
      finishInvoke sk (getFnName fid) fid (runFull sk st stk body)
  | st, stk, .bustCall body =>
    let st1 : St := ⟨st.store, (st.busting + 1) % 2 ^ 32⟩
    let r := runFull sk st1 (cacheBustingFnPc :: stk) body
    let st2 : St := ⟨r.st.store, (r.st.busting + (2 ^ 32 - 1)) % 2 ^ 32⟩
    match r.val with
    | .error e => ⟨.error e, st2, r.calls, r.writes⟩
    | .ok _ => ⟨.ok GoVal.nil, st2, r.calls, r.writes⟩
  | st, stk, .inFrame pc body => runFull sk st (pc :: stk) body

/-- How many frames of the stack are the `Bust` sentinel: the number of
`Bust` invocations the current call is nested under. -/
def sentinelCount (stk : List Uintptr) : Nat :=
  List.count cacheBustingFnPc stk

/-- The deepest static nesting of `bustCall` in a program: an upper bound on
how much the `busting` counter can grow while the program runs. -/
def bustDepth : Prog → Nat
  | .ret _ => 0
  | .fail => 0
  | .seq p q => max (bustDepth p) (bustDepth q)
  | .cacheCall _ _ body => bustDepth body
  | .wrapCall _ body => bustDepth body
  | .bustCall body => bustDepth body + 1
  | .inFrame _ body => bustDepth body

/-- The expected fully-qualified symbolic name of the cache busting function,
against which `init` validates its calibration. -/
def cacheBustingFn : String := "github.com/aviddiviner/funcache.(*Cache).Bust"

/-- `init`: calibrate the sentinel by calling `nilCache().Bust` with a closure
that records `runtime.Caller(1)` — the return address one frame above the
capture point, i.e. the address inside `(*Cache).Bust` where `fn()` returns —
then sanity-check the recorded address by resolving it with
`runtime.FuncForPC` and comparing the name against `cacheBustingFn`; on a
mismatch, `panic` aborts initialization. The runtime-reflection primitives are
the inputs: `caller1` is the address `runtime.Caller(1)` observes inside the
closure, and `funcForPC` resolves an address to a symbolic name. -/
def initFuncache (caller1 : Uintptr) (funcForPC : Uintptr → String) :
    Except String Uintptr :=
  let pc := caller1
  if funcForPC pc = cacheBustingFn then Except.ok pc
  else Except.error "funcache: init: unable to identify cache busting func"

/-- No intermediate frame pushed by the program uses the sentinel return
address: true of every real program, since the only code location whose
return address is the calibrated sentinel is the call of `fn()` inside
`(*Cache).Bust` itself. -/
def noFakeBustFrames : Prog → Bool
  | .ret _ => true
  | .fail => true
  | .seq p q => noFakeBustFrames p && noFakeBustFrames q
  | .cacheCall _ _ body => noFakeBustFrames body
  | .wrapCall _ body => noFakeBustFrames body
  | .bustCall body => noFakeBustFrames body
  | .inFrame pc body => (pc != cacheBustingFnPc) && noFakeBustFrames body

/-! ### Map and store lemmas -/

theorem mapLookup_mapInsert_self (m : List (GoVal × GoVal)) (k v : GoVal) :
    mapLookup (mapInsert m k v) k = some v := by
  induction m with
  | nil => simp [mapInsert, mapLookup]
  | cons hd tl ih =>
    obtain ⟨k0, v0⟩ := hd
    by_cases h : k0 = k
    · simp [mapInsert, mapLookup, h]
    · simp [mapInsert, mapLookup, h, ih]

theorem mapLookup_mapInsert_ne (m : List (GoVal × GoVal)) (k v k' : GoVal)
    (h : k' ≠ k) : mapLookup (mapInsert m k v) k' = mapLookup m k' := by
  have h2 : k ≠ k' := Ne.symm h
  induction m with
  | nil => simp [mapInsert, mapLookup, h2]
  | cons hd tl ih =>
    obtain ⟨k0, v0⟩ := hd
    simp only [mapInsert]
    by_cases h0 : k0 = k
    · subst h0
      simp [mapLookup, h2]
    · simp only [if_neg h0, mapLookup]
      by_cases h1 : k0 = k'
      · simp [h1]
      · simp [h1, ih]

theorem mapLookup_append_of_none (a b : List (GoVal × GoVal)) (k : GoVal)
    (h : mapLookup a k = none) : mapLookup (a ++ b) k = mapLookup b k := by
  induction a with
  | nil => simp
  | cons hd tl ih =>
    obtain ⟨k0, v0⟩ := hd
    by_cases h0 : k0 = k
    · simp [mapLookup, h0] at h
    · simp [mapLookup, h0] at h ⊢
      exact ih h

theorem mapInsert_of_lookup_none (m : List (GoVal × GoVal)) (k v : GoVal)
    (h : mapLookup m k = none) : mapInsert m k v = m ++ [(k, v)] := by
  induction m with
  | nil => simp [mapInsert]
  | cons hd tl ih =>
    obtain ⟨k0, v0⟩ := hd
    by_cases h0 : k0 = k
    · simp [mapLookup, h0] at h
    · simp [mapLookup, h0] at h
      simp [mapInsert, h0, ih h]

theorem mapLookup_eq_none_of_not_mem (m : List (GoVal × GoVal)) (k : GoVal)
    (h : k ∉ m.map Prod.fst) : mapLookup m k = none := by
  induction m with
  | nil => simp [mapLookup]
  | cons hd tl ih =>
    obtain ⟨k0, v0⟩ := hd
    simp only [List.map_cons, List.mem_cons, not_or] at h
    have h1 : k0 ≠ k := Ne.symm h.1
    simp [mapLookup, h1, ih h.2]

theorem foldl_mapInsert_eq_append (m acc : List (GoVal × GoVal))
    (hnd : (m.map Prod.fst).Nodup)
    (hdisj : ∀ k ∈ m.map Prod.fst, mapLookup acc k = none) :
    m.foldl (fun acc kv => mapInsert acc kv.1 kv.2) acc = acc ++ m := by
  induction m generalizing acc with
  | nil => simp
  | cons hd tl ih =>
    obtain ⟨k0, v0⟩ := hd
    simp only [List.map_cons, List.nodup_cons] at hnd
    have hacc : mapLookup acc k0 = none := hdisj k0 (by simp)
    have step : mapInsert acc k0 v0 = acc ++ [(k0, v0)] :=
      mapInsert_of_lookup_none acc k0 v0 hacc
    simp only [List.foldl_cons, step]
    rw [ih (acc ++ [(k0, v0)]) hnd.2]
    · simp
    · intro k hk
      have hk0 : k ≠ k0 := by
        rintro rfl
        exact hnd.1 hk
      have h1 : mapLookup acc k = none := hdisj k (by simp [hk])
      rw [mapLookup_append_of_none _ _ _ h1]
      simp [mapLookup, hk0.symm]

theorem mapClone_eq_self (m : List (GoVal × GoVal))
    (hnd : (m.map Prod.fst).Nodup) : mapClone m = m := by
  unfold mapClone
  rw [foldl_mapInsert_eq_append m [] hnd (by intro k _; simp [mapLookup])]
  simp

/-! ### Call-stack walk lemmas -/

theorem getAllCallers_eq_drop (stack : List Uintptr) (skip : Nat) :
    getAllCallers stack skip = stack.drop skip := by
  rw [getAllCallers]
  by_cases h : (runtimeCallers stack skip).length < 64
  · rw [dif_pos h]
    simp only [runtimeCallers, List.length_take, List.length_drop] at h
    have hlen : (stack.drop skip).length ≤ 64 := by
      rw [List.length_drop]
      omega
    exact List.take_of_length_le hlen
  · rw [dif_neg h]
    simp only [runtimeCallers, List.length_take, List.length_drop] at h
    have hrec := getAllCallers_eq_drop stack (skip + (runtimeCallers stack skip).length)
    rw [hrec]
    have hmin : min 64 (stack.length - skip) = 64 := by omega
    simp only [runtimeCallers, List.length_take, List.length_drop, hmin]
    have hdd : List.drop (skip + 64) stack = List.drop 64 (List.drop skip stack) := by
      rw [List.drop_drop]
    rw [hdd, List.take_append_drop]
termination_by stack.length - skip
decreasing_by
  simp only [runtimeCallers, List.length_take, List.length_drop] at h ⊢
  all_goals omega

theorem wasCalledBy_iff (stk : List Uintptr) :
    wasCalledByCacheBustingFn stk = true ↔ cacheBustingFnPc ∈ stk := by
  unfold wasCalledByCacheBustingFn
  rw [getAllCallers_eq_drop, List.drop_zero, List.any_eq_true]
  simp

theorem wasCalledBy_false_iff (stk : List Uintptr) :
    wasCalledByCacheBustingFn stk = false ↔ cacheBustingFnPc ∉ stk := by
  rw [← Bool.not_eq_true, not_iff_not]
  exact wasCalledBy_iff stk

/-! ### Busting-counter preservation -/

theorem run_busting_eq (sk : StoreKind) (p : Prog) :
    ∀ st stk, st.busting < 2 ^ 32 → (run sk st stk p).st.busting = st.busting := by
  induction p with
  | ret v => intro st stk _; simp [run]
  | fail => intro st stk _; simp [run]
  | seq p q ihp ihq =>
    intro st stk hb
    simp only [run]
    cases hval : (run sk st stk p).val with
    | error e => simpa using ihp st stk hb
    | ok v =>
      have h1 := ihp st stk hb
      simpa using (h1 ▸ ihq (run sk st stk p).st stk (h1 ▸ hb))
  | cacheCall key fid body ih =>
    intro st stk hb
    simp only [run]
    by_cases hc : (st.busting == 0 || !wasCalledByCacheBustingFn stk) = true
    · rw [if_pos hc]
      cases hget : storeGet sk st.store key with
      | some data => simp
      | none =>
        simp only [finishInvoke]
        cases hval : (run sk st stk body).val with
        | error e => simpa using ih st stk hb
        | ok data => simpa using ih st stk hb
    · rw [if_neg hc]
      simp only [finishInvoke]
      cases hval : (run sk st stk body).val with
      | error e => simpa using ih st stk hb
      | ok data => simpa using ih st stk hb
  | wrapCall fid body ih =>
    intro st stk hb
    simp only [run]
    by_cases hc : (st.busting == 0 || !wasCalledByCacheBustingFn stk) = true
    · rw [if_pos hc]
      cases hget : storeGet sk st.store (getFnName fid) with
      | some data => simp
      | none =>
        simp only [finishInvoke]
        cases hval : (run sk st stk body).val with
        | error e => simpa using ih st stk hb
        | ok data => simpa using ih st stk hb
    · rw [if_neg hc]
      simp only [finishInvoke]
      cases hval : (run sk st stk body).val with
      | error e => simpa using ih st stk hb
      | ok data => simpa using ih st stk hb
  | bustCall body ih =>
    intro st stk hb
    have h1 : (st.busting + 1) % 2 ^ 32 < 2 ^ 32 := Nat.mod_lt _ (by norm_num)
    have h2 := ih ⟨st.store, (st.busting + 1) % 2 ^ 32⟩ (cacheBustingFnPc :: stk) h1
    simp only [run]
    cases hval : (run sk ⟨st.store, (st.busting + 1) % 2 ^ 32⟩ (cacheBustingFnPc :: stk) body).val with
    | error e =>
      simp only [hval]
      simp only [St.busting] at h2 ⊢
      rw [h2, Nat.mod_add_mod, show st.busting + 1 + (2 ^ 32 - 1) = st.busting + 2 ^ 32 by omega,
        Nat.add_mod_right, Nat.mod_eq_of_lt hb]
    | ok v =>
      simp only [hval]
      simp only [St.busting] at h2 ⊢
      rw [h2, Nat.mod_add_mod, show st.busting + 1 + (2 ^ 32 - 1) = st.busting + 2 ^ 32 by omega,
        Nat.add_mod_right, Nat.mod_eq_of_lt hb]
  | inFrame pc body ih =>
    intro st stk hb
    simp only [run]
    exact ih st (pc :: stk) hb

/-! ### Fast path versus full stack walk -/

theorem busting_zero_no_sentinel (stk : List Uintptr) (h : sentinelCount stk = 0) :
    wasCalledByCacheBustingFn stk = false := by
  rw [wasCalledBy_false_iff]
  rw [sentinelCount] at h
  exact List.count_eq_zero.mp h

theorem fastPathCond_eq (st : St) (stk : List Uintptr)
    (hinv : st.busting = sentinelCount stk) :
    (st.busting == 0 || !wasCalledByCacheBustingFn stk) =
      (!wasCalledByCacheBustingFn stk) := by
  cases hb : (st.busting == 0) with
  | false => simp
  | true =>
    have h0 : st.busting = 0 := by simpa using hb
    have hcnt : sentinelCount stk = 0 := by omega
    have hwalk := busting_zero_no_sentinel stk hcnt
    simp [hwalk, hb]

theorem run_eq_runFull (sk : StoreKind) (p : Prog) :
    ∀ st stk, noFakeBustFrames p = true →
      st.busting = sentinelCount stk →
      sentinelCount stk + bustDepth p < 2 ^ 32 →
      run sk st stk p = runFull sk st stk p := by
  induction p with
  | ret v => intro st stk _ _ _; simp [run, runFull]
  | fail => intro st stk _ _ _; simp [run, runFull]
  | seq p q ihp ihq =>
    intro st stk hnf hinv hlt
    simp only [noFakeBustFrames, Bool.and_eq_true] at hnf
    simp only [bustDepth] at hlt
    have hblt : st.busting < 2 ^ 32 := by omega
    have hrb : (run sk st stk p).st.busting = st.busting := run_busting_eq sk p st stk hblt
    have hp := ihp st stk hnf.1 hinv (by omega)
    have hq := ihq (run sk st stk p).st stk hnf.2 (by rw [hrb]; exact hinv) (by omega)
    rw [hp] at hq
    simp only [run, runFull, hp, hq]
  | cacheCall key fid body ih =>
    intro st stk hnf hinv hlt
    simp only [noFakeBustFrames] at hnf
    simp only [bustDepth] at hlt
    have hc := fastPathCond_eq st stk hinv
    have hb := ih st stk hnf hinv hlt
    simp only [run, runFull, hc, hb]
  | wrapCall fid body ih =>
    intro st stk hnf hinv hlt
    simp only [noFakeBustFrames] at hnf
    simp only [bustDepth] at hlt
    have hc := fastPathCond_eq st stk hinv
    have hb := ih st stk hnf hinv hlt
    simp only [run, runFull, hc, hb]
  | bustCall body ih =>
    intro st stk hnf hinv hlt
    simp only [noFakeBustFrames] at hnf
    simp only [bustDepth] at hlt
    have hmod : (st.busting + 1) % 2 ^ 32 = st.busting + 1 :=
      Nat.mod_eq_of_lt (by omega)
    have hcount : sentinelCount (cacheBustingFnPc :: stk) = sentinelCount stk + 1 := by
      simp [sentinelCount, List.count_cons_self]
    have hib := ih ⟨st.store, (st.busting + 1) % 2 ^ 32⟩ (cacheBustingFnPc :: stk) hnf
      (by simp only [hmod, hcount]; omega) (by rw [hcount]; omega)
    simp only [run, runFull, hib]
  | inFrame pc body ih =>
    intro st stk hnf hinv hlt
    simp only [noFakeBustFrames, Bool.and_eq_true, bne_iff_ne] at hnf
    simp only [bustDepth] at hlt
    have hcount : sentinelCount (pc :: stk) = sentinelCount stk := by
      simp [sentinelCount, List.count_cons_of_ne (Ne.symm hnf.1)]
    simp only [run, runFull]
    exact ih st (pc :: stk) hnf.2 (by rw [hcount]; exact hinv) (by rw [hcount]; exact hlt)

/-! ### Claim theorems -/

/-- C1: after `Cache(k, f)` has stored a value, calling `Cache(k, f)` again
inside the dynamic extent of `Bust` invokes `f` a second time and overwrites
the stored entry for `k` with the new result, even though the result is
identical: for any map-backed store, the one-call-then-bust-call program
invokes the closure twice, performs two `Store.Add` writes of the same pair,
and leaves the freshly rewritten entry in the store. -/
theorem bust_forces_recompute_and_overwrite (sk : StoreKind) (k v : GoVal)
    (fid : Nat) (hsk : sk ≠ StoreKind.nilStore) :
    run sk ⟨[], 0⟩ []
        (.seq (.cacheCall k fid (.ret v)) (.bustCall (.cacheCall k fid (.ret v)))) =
      ⟨.ok GoVal.nil, ⟨[(k, v)], 0⟩, [fid, fid], [(k, v), (k, v)]⟩ := by
  have hw : wasCalledByCacheBustingFn [cacheBustingFnPc] = true := by
    rw [wasCalledBy_iff]
    simp
  cases sk with
  | nilStore => exact absurd rfl hsk
  | syncMap => norm_num [run, finishInvoke, storeGet, storeAdd, mapLookup, mapInsert, hw]
  | cowMap =>
    norm_num [run, finishInvoke, storeGet, storeAdd, mapLookup, mapInsert, mapClone, hw]

/-- Witness for C1: the literal scenario of the spec, on the mutex-guarded
map store. -/
theorem bust_forces_recompute_and_overwrite_witness :
    StoreKind.syncMap ≠ StoreKind.nilStore ∧
    run .syncMap ⟨[], 0⟩ []
        (.seq (.cacheCall (.str "foo") 7 (.ret (.str "Foo!")))
          (.bustCall (.cacheCall (.str "foo") 7 (.ret (.str "Foo!"))))) =
      ⟨.ok GoVal.nil, ⟨[(.str "foo", .str "Foo!")], 0⟩, [7, 7],
        [(.str "foo", .str "Foo!"), (.str "foo", .str "Foo!")]⟩ :=
  ⟨by decide,
    bust_forces_recompute_and_overwrite .syncMap (.str "foo") (.str "Foo!") 7 (by decide)⟩

/-- C2: the per-call contract of `Cache.Cache`. When the fast-path count is
zero or the stack walk reports not-busting and `Store.Get` hits, the cached
value is returned with the computation not invoked, no state change, and
zero store writes. On a miss, or when busting is detected, the computation
is invoked exactly once, exactly one `Store.Add(key, result)` is performed,
and the result is returned. -/
theorem cache_hit_miss_bust_contract (sk : StoreKind) (st : St)
    (stk : List Uintptr) (key : GoVal) (fid : Nat) (body : Prog) (v : GoVal) :
    ((st.busting == 0 || !wasCalledByCacheBustingFn stk) = true →
      storeGet sk st.store key = some v →
      run sk st stk (.cacheCall key fid body) = ⟨.ok v, st, [], []⟩) ∧
    (storeGet sk st.store key = none →
      run sk st stk (.cacheCall key fid (.ret v)) =
        ⟨.ok v, ⟨storeAdd sk st.store key v, st.busting⟩, [fid], [(key, v)]⟩) ∧
    ((st.busting == 0 || !wasCalledByCacheBustingFn stk) = false →
      run sk st stk (.cacheCall key fid (.ret v)) =
        ⟨.ok v, ⟨storeAdd sk st.store key v, st.busting⟩, [fid], [(key, v)]⟩) := by
  refine ⟨?_, ?_, ?_⟩
  · intro hc hget
    simp [run, hc, hget]
  · intro hget
    by_cases hc : (st.busting == 0 || !wasCalledByCacheBustingFn stk) = true
    · simp [run, hc, hget, finishInvoke]
    · rw [Bool.not_eq_true] at hc
      simp [run, hc, finishInvoke]
  · intro hc
    simp [run, hc, finishInvoke]

/-- Witness for C2: a hit on a populated store returns the cached value
without running the (different-valued) computation and without writing. -/
theorem cache_hit_miss_bust_contract_witness :
    ((St.mk [(GoVal.str "k", GoVal.int 7)] 0).busting == 0 ||
        !wasCalledByCacheBustingFn []) = true ∧
    storeGet .syncMap (St.mk [(GoVal.str "k", GoVal.int 7)] 0).store (.str "k") =
      some (.int 7) ∧
    run .syncMap ⟨[(GoVal.str "k", GoVal.int 7)], 0⟩ []
        (.cacheCall (.str "k") 3 (.ret (.int 8))) =
      ⟨.ok (.int 7), ⟨[(GoVal.str "k", GoVal.int 7)], 0⟩, [], []⟩ :=
  ⟨by decide, by decide,
    (cache_hit_miss_bust_contract .syncMap ⟨[(GoVal.str "k", GoVal.int 7)], 0⟩ []
        (.str "k") 3 (.ret (.int 8)) (.int 7)).1 (by decide) (by decide)⟩

/-- C6: if the computation passed to `Cache` or `Wrap` is invoked and panics,
the panic propagates synchronously, nothing is added to the store for that
key (the whole cache state is unchanged), and a subsequent call with the same
key invokes the computation again. -/
theorem computation_failure_propagates (sk : StoreKind) (st : St)
    (stk : List Uintptr) (key : GoVal) (fid fid2 : Nat) (v : GoVal)
    (h : storeGet sk st.store key = none ∨
      (st.busting == 0 || !wasCalledByCacheBustingFn stk) = false) :
    run sk st stk (.cacheCall key fid .fail) = ⟨.error (), st, [fid], []⟩ ∧
    (storeGet sk st.store key = none →
      (run sk (run sk st stk (.cacheCall key fid .fail)).st stk
          (.cacheCall key fid2 (.ret v))).calls = [fid2]) ∧
    (storeGet sk st.store (getFnName fid) = none ∨
        (st.busting == 0 || !wasCalledByCacheBustingFn stk) = false →
      run sk st stk (.wrapCall fid .fail) = ⟨.error (), st, [fid], []⟩) := by
  have hmain : run sk st stk (.cacheCall key fid .fail) = ⟨.error (), st, [fid], []⟩ := by
    rcases h with hget | hc
    · by_cases hc2 : (st.busting == 0 || !wasCalledByCacheBustingFn stk) = true
      · simp [run, hc2, hget, finishInvoke]
      · rw [Bool.not_eq_true] at hc2
        simp [run, hc2, finishInvoke]
    · simp [run, hc, finishInvoke]
  refine ⟨hmain, ?_, ?_⟩
  · intro hget
    rw [hmain]
    by_cases hc2 : (st.busting == 0 || !wasCalledByCacheBustingFn stk) = true
    · simp [run, hc2, hget, finishInvoke]
    · rw [Bool.not_eq_true] at hc2
      simp [run, hc2, finishInvoke]
  · rintro (hgetw | hcw)
    · by_cases hc2 : (st.busting == 0 || !wasCalledByCacheBustingFn stk) = true
      · simp [run, hc2, hgetw, finishInvoke]
      · rw [Bool.not_eq_true] at hc2
        simp [run, hc2, finishInvoke]
    · simp [run, hcw, finishInvoke]

/-- Witness for C6: a panicking computation on a cold key leaves the cache
state untouched and propagates the panic. -/
theorem computation_failure_propagates_witness :
    storeGet .syncMap (St.mk [] 0).store (.str "k") = none ∧
    run .syncMap ⟨[], 0⟩ [] (.cacheCall (.str "k") 1 .fail) =
      ⟨.error (), ⟨[], 0⟩, [1], []⟩ :=
  ⟨by decide,
    (computation_failure_propagates .syncMap ⟨[], 0⟩ [] (.str "k") 1 2 (.int 3)
        (Or.inl (by decide))).1⟩

/-- C10: in the in-memory stores, keys are distinguished by interface-value
equality, not by their printed representation: the string key `"123"`, the
integer key `123`, and the `nil` key occupy three distinct entries in both
map stores, and cache calls with those keys neither share nor overwrite each
other's cached values — re-calling `Cache` under the string key `"123"` hits
the entry that key wrote and leaves all entries intact. -/
theorem keys_interface_equality (v1 v2 v3 w : GoVal) :
    (storeGet .syncMap
        (storeAdd .syncMap
          (storeAdd .syncMap (storeAdd .syncMap [] (.str "123") v1) (.int 123) v2)
          .nil v3) (.str "123") = some v1 ∧
      storeGet .syncMap
        (storeAdd .syncMap
          (storeAdd .syncMap (storeAdd .syncMap [] (.str "123") v1) (.int 123) v2)
          .nil v3) (.int 123) = some v2 ∧
      storeGet .syncMap
        (storeAdd .syncMap
          (storeAdd .syncMap (storeAdd .syncMap [] (.str "123") v1) (.int 123) v2)
          .nil v3) .nil = some v3) ∧
    (storeGet .cowMap
        (storeAdd .cowMap
          (storeAdd .cowMap (storeAdd .cowMap [] (.str "123") v1) (.int 123) v2)
          .nil v3) (.str "123") = some v1 ∧
      storeGet .cowMap
        (storeAdd .cowMap
          (storeAdd .cowMap (storeAdd .cowMap [] (.str "123") v1) (.int 123) v2)
          .nil v3) (.int 123) = some v2 ∧
      storeGet .cowMap
        (storeAdd .cowMap
          (storeAdd .cowMap (storeAdd .cowMap [] (.str "123") v1) (.int 123) v2)
          .nil v3) .nil = some v3) ∧
    run .syncMap ⟨[], 0⟩ []
        (.seq (.cacheCall (.str "123") 1 (.ret v1))
          (.seq (.cacheCall (.int 123) 2 (.ret v2))
            (.seq (.cacheCall .nil 3 (.ret v3))
              (.cacheCall (.str "123") 4 (.ret w))))) =
      ⟨.ok v1, ⟨[(.str "123", v1), (.int 123, v2), (.nil, v3)], 0⟩, [1, 2, 3],
        [(.str "123", v1), (.int 123, v2), (.nil, v3)]⟩ := by
  refine ⟨⟨?_, ?_, ?_⟩, ⟨?_, ?_, ?_⟩, ?_⟩ <;>
    simp [run, finishInvoke, storeGet, storeAdd, mapLookup, mapInsert, mapClone]

/-- C3: the fast-path check (skip the stack walk when the atomic active-bust
count is zero) returns the same answer as always performing the full stack
walk: running any program whose intermediate frames do not spoof the sentinel,
from any state satisfying the invariant that the counter equals the number of
sentinel frames (as every reachable state does, starting from counter zero and
an empty stack) and whose bust nesting cannot overflow the uint32 counter,
gives identical results under the fast-path semantics `run` and the
full-walk semantics `runFull`; in particular a zero count implies the full
walk would find no `Bust` sentinel frame. -/
theorem fast_path_refines_full_walk (sk : StoreKind) (p : Prog) (st : St)
    (stk : List Uintptr)
    (hnf : noFakeBustFrames p = true)
    (hinv : st.busting = sentinelCount stk)
    (hlt : sentinelCount stk + bustDepth p < 2 ^ 32) :
    run sk st stk p = runFull sk st stk p ∧
    (st.busting = 0 → wasCalledByCacheBustingFn stk = false) := by
  constructor
  · exact run_eq_runFull sk p st stk hnf hinv hlt
  · intro h0
    exact busting_zero_no_sentinel stk (by omega)

/-- Witness for C3 at a concrete program: a bust-scoped cache call, made
through an intermediate frame, over an already-populated key. -/
theorem fast_path_refines_full_walk_witness :
    noFakeBustFrames
        (.seq (.cacheCall (.str "k") 1 (.ret (.int 5)))
          (.bustCall (.inFrame 7 (.cacheCall (.str "k") 1 (.ret (.int 5)))))) = true ∧
    (St.mk [] 0).busting = sentinelCount [] ∧
    sentinelCount [] +
        bustDepth
          (.seq (.cacheCall (.str "k") 1 (.ret (.int 5)))
            (.bustCall (.inFrame 7 (.cacheCall (.str "k") 1 (.ret (.int 5)))))) <
      2 ^ 32 ∧
    run .syncMap ⟨[], 0⟩ []
        (.seq (.cacheCall (.str "k") 1 (.ret (.int 5)))
          (.bustCall (.inFrame 7 (.cacheCall (.str "k") 1 (.ret (.int 5)))))) =
      runFull .syncMap ⟨[], 0⟩ []
        (.seq (.cacheCall (.str "k") 1 (.ret (.int 5)))
          (.bustCall (.inFrame 7 (.cacheCall (.str "k") 1 (.ret (.int 5)))))) :=
  ⟨by decide, by decide, by decide,
    (fast_path_refines_full_walk .syncMap
        (.seq (.cacheCall (.str "k") 1 (.ret (.int 5)))
          (.bustCall (.inFrame 7 (.cacheCall (.str "k") 1 (.ret (.int 5))))))
        ⟨[], 0⟩ [] (by decide) (by decide) (by decide)).1⟩

/-- C4: `Bust(body)` increments the active-bust count, invokes `body` (under
the incremented count, with the sentinel frame on the stack), and decrements
the count on every exit path — the second conjunct holds whether `body`
returns normally or panics, since the decrement is deferred — so the count
after `Bust` finishes equals its pre-call value. -/
theorem bust_restores_counter_on_every_exit (sk : StoreKind) (st : St)
    (stk : List Uintptr) (body : Prog) (hb : st.busting < 2 ^ 32) :
    (run sk st stk (.bustCall body)).st.busting = st.busting ∧
    (run sk st stk (.bustCall body)).calls =
      (run sk ⟨st.store, (st.busting + 1) % 2 ^ 32⟩ (cacheBustingFnPc :: stk)
        body).calls := by
  constructor
  · exact run_busting_eq sk (.bustCall body) st stk hb
  · simp only [run]
    cases hval : (run sk ⟨st.store, (st.busting + 1) % 2 ^ 32⟩
        (cacheBustingFnPc :: stk) body).val with
    | error e => simp [hval]
    | ok v => simp [hval]

/-- Witness for C4 at a panicking body: the counter is restored even when the
body fails by unwinding. -/
theorem bust_restores_counter_on_every_exit_witness :
    (St.mk [] 0).busting < 2 ^ 32 ∧
    ((run .nilStore ⟨[], 0⟩ [] (.bustCall .fail)).st.busting = (St.mk [] 0).busting ∧
      (run .nilStore ⟨[], 0⟩ [] (.bustCall .fail)).calls =
        (run .nilStore ⟨[], (0 + 1) % 2 ^ 32⟩ [cacheBustingFnPc] Prog.fail).calls) :=
  ⟨by decide, bust_restores_counter_on_every_exit .nilStore ⟨[], 0⟩ [] .fail (by decide)⟩

/-- C5: for both reference stores, `Get` after `Add` with the same key
returns the value just added (so after any sequence of `Add`s on a key it
returns the most recent one), `Add` overwrites the previous association, and
`Add`/`Get` on one key never alter the association of any other key. The
no-duplicate-keys hypothesis holds of every Go map (and of every store
contents built by `Add` from empty). -/
theorem store_add_get_invariants (m : List (GoVal × GoVal)) (k v k' : GoVal)
    (hnd : (m.map Prod.fst).Nodup) :
    storeGet .syncMap (storeAdd .syncMap m k v) k = some v ∧
    (k' ≠ k → storeGet .syncMap (storeAdd .syncMap m k v) k' = storeGet .syncMap m k') ∧
    storeGet .cowMap (storeAdd .cowMap m k v) k = some v ∧
    (k' ≠ k → storeGet .cowMap (storeAdd .cowMap m k v) k' = storeGet .cowMap m k') := by
  refine ⟨?_, ?_, ?_, ?_⟩
  · simpa [storeGet, storeAdd] using mapLookup_mapInsert_self m k v
  · intro h
    simpa [storeGet, storeAdd] using mapLookup_mapInsert_ne m k v k' h
  · simp [storeGet, storeAdd, mapClone_eq_self m hnd, mapLookup_mapInsert_self]
  · intro h
    simp [storeGet, storeAdd, mapClone_eq_self m hnd, mapLookup_mapInsert_ne m k v k' h]

/-- Witness for C5: overwrite an existing key, check the other key is
untouched, in both stores. -/
theorem store_add_get_invariants_witness :
    (([((GoVal.str "a"), GoVal.int 1), ((GoVal.str "b"), GoVal.int 2)].map
        Prod.fst).Nodup) ∧
    (GoVal.str "b") ≠ (GoVal.str "a") ∧
    storeGet .syncMap
        (storeAdd .syncMap [((GoVal.str "a"), GoVal.int 1), ((GoVal.str "b"), GoVal.int 2)]
          (.str "a") (.int 9)) (.str "a") = some (.int 9) ∧
    storeGet .syncMap
        (storeAdd .syncMap [((GoVal.str "a"), GoVal.int 1), ((GoVal.str "b"), GoVal.int 2)]
          (.str "a") (.int 9)) (.str "b") =
      storeGet .syncMap [((GoVal.str "a"), GoVal.int 1), ((GoVal.str "b"), GoVal.int 2)]
        (.str "b") ∧
    storeGet .cowMap
        (storeAdd .cowMap [((GoVal.str "a"), GoVal.int 1), ((GoVal.str "b"), GoVal.int 2)]
          (.str "a") (.int 9)) (.str "a") = some (.int 9) ∧
    storeGet .cowMap
        (storeAdd .cowMap [((GoVal.str "a"), GoVal.int 1), ((GoVal.str "b"), GoVal.int 2)]
          (.str "a") (.int 9)) (.str "b") =
      storeGet .cowMap [((GoVal.str "a"), GoVal.int 1), ((GoVal.str "b"), GoVal.int 2)]
        (.str "b") :=
  ⟨by decide, by decide,
    (store_add_get_invariants [((GoVal.str "a"), GoVal.int 1), ((GoVal.str "b"), GoVal.int 2)]
        (.str "a") (.int 9) (.str "b") (by decide)).1,
    (store_add_get_invariants [((GoVal.str "a"), GoVal.int 1), ((GoVal.str "b"), GoVal.int 2)]
        (.str "a") (.int 9) (.str "b") (by decide)).2.1 (by decide),
    (store_add_get_invariants [((GoVal.str "a"), GoVal.int 1), ((GoVal.str "b"), GoVal.int 2)]
        (.str "a") (.int 9) (.str "b") (by decide)).2.2.1,
    (store_add_get_invariants [((GoVal.str "a"), GoVal.int 1), ((GoVal.str "b"), GoVal.int 2)]
        (.str "a") (.int 9) (.str "b") (by decide)).2.2.2 (by decide)⟩

/-- C7: `init` calibrates the sentinel by invoking `Bust` once against the
null store and recording the return address one frame above the capture
point (`runtime.Caller(1)`, here the input `caller1`); if that address does
not resolve to the expected symbolic name of the `Bust` function,
initialization aborts fatally (panics) instead of continuing with a wrong
sentinel. -/
theorem init_calibration (caller1 : Uintptr) (funcForPC : Uintptr → String) :
    (funcForPC caller1 ≠ cacheBustingFn →
      initFuncache caller1 funcForPC =
        .error "funcache: init: unable to identify cache busting func") ∧
    (funcForPC caller1 = cacheBustingFn →
      initFuncache caller1 funcForPC = .ok caller1) := by
  constructor
  · intro h
    simp [initFuncache, h]
  · intro h
    simp [initFuncache, h]

/-- Witness for C7: a resolver that misidentifies the address makes `init`
abort; the correct resolver lets it record the sentinel. -/
theorem init_calibration_witness :
    ((fun _ : Uintptr => "main.main") 42 ≠ cacheBustingFn ∧
      initFuncache 42 (fun _ => "main.main") =
        .error "funcache: init: unable to identify cache busting func") ∧
    ((fun _ : Uintptr => cacheBustingFn) 42 = cacheBustingFn ∧
      initFuncache 42 (fun _ => cacheBustingFn) = .ok 42) :=
  ⟨⟨by decide, (init_calibration 42 (fun _ => "main.main")).1 (by decide)⟩,
    ⟨rfl, (init_calibration 42 (fun _ => cacheBustingFn)).2 rfl⟩⟩

/-- C8: `Wrap(fn)` behaves exactly as `Cache(key, fn)` with the key derived
from the computation's own identity, and the derived key is injective in the
closure's defining location: distinct defining locations give distinct keys
(no shared cache slot), the same closure value gives the same key. -/
theorem wrap_equiv_cache_auto_key (sk : StoreKind) (st : St) (stk : List Uintptr)
    (fid : Nat) (body : Prog) :
    run sk st stk (.wrapCall fid body) =
      run sk st stk (.cacheCall (getFnName fid) fid body) ∧
    (∀ f g : Nat, getFnName f = getFnName g ↔ f = g) := by
  constructor
  · simp only [run]
  · intro f g
    simp [getFnName]

/-- Witness for C8: a concrete `Wrap` call equals the `Cache` call under the
derived key, and two distinct defining locations give distinct keys. -/
theorem wrap_equiv_cache_auto_key_witness :
    run .nilStore ⟨[], 0⟩ [] (.wrapCall 5 (.ret .nil)) =
      run .nilStore ⟨[], 0⟩ [] (.cacheCall (getFnName 5) 5 (.ret .nil)) ∧
    (getFnName 1 = getFnName 2 ↔ 1 = 2) :=
  ⟨(wrap_equiv_cache_auto_key .nilStore ⟨[], 0⟩ [] 5 (.ret .nil)).1,
    (wrap_equiv_cache_auto_key .nilStore ⟨[], 0⟩ [] 5 (.ret .nil)).2 1 2⟩

/-- C9: the capture routine returns the full sequence of return addresses
from the immediate caller outward to the program entry point, for every
stack depth: collecting in batches of 64 and advancing the skip count until
a batch comes back not full yields exactly the whole remainder of the stack
past the skipped frames, with no fixed maximum depth. -/
theorem getAllCallers_full_stack (stack : List Uintptr) (skip : Nat) :
    getAllCallers stack skip = stack.drop skip :=
  getAllCallers_eq_drop stack skip

end Funcache
